import Mathlib

/-!
Verification of the PromptSync workflow engine (`src/workflow/chain_builder.py`
and `src/utils/shared.py`) against its natural-language specification.

Modelling conventions:
* Python runtime values appearing in execution contexts, step configs and step
  outputs are modelled by the JSON-like type `Val` (None, bool, int, str, dict).
  Floats and lists never occur in the behaviours the claims exercise.
* Python dicts are modelled as insertion-ordered association lists with unique
  keys; `dict.get(k, d)` is `pyGetD`, `dict[k] = v` is `setKey`.
* Exceptions are modelled with `Except String`; the string is the message of
  the raised exception (`str(e)`).
* Wall-clock measurements (`datetime.now()` differences) are modelled by
  oracle parameters: a per-step duration function and a total duration.
* `print` calls are not modelled, except that subscript accesses inside them
  (`output[...]`) can raise `KeyError`, which is modelled.
-/

namespace PromptSync

/-- JSON-like Python runtime values used in contexts, configs and outputs. -/
inductive Val where
  | vNone : Val
  | vBool : Bool → Val
  | vInt : Int → Val
  | vStr : String → Val
  | vDict : List (String × Val) → Val
deriving Repr

/-- Python truthiness (`bool(v)`) for the modelled values. -/
def pyTruthy : Val → Bool
  | .vNone => false
  | .vBool b => b
  | .vInt n => n != 0
  | .vStr s => s != ""
  | .vDict d => !d.isEmpty

/-- Python `repr(v)` for the modelled values (used by `str` on dicts).
Escaping inside string reprs is not modelled; no exercised value needs it. -/
def pyRepr : Val → String
  | .vNone => "None"
  | .vBool true => "True"
  | .vBool false => "False"
  | .vInt n => toString n
  | .vStr s => "\x27" ++ s ++ "\x27"
  | .vDict d => "\x7b" ++ pyReprFields d ++ "\x7d"
where
  pyReprFields : List (String × Val) → String
  | [] => ""
  | [(k, v)] => "\x27" ++ k ++ "\x27: " ++ pyRepr v
  | (k, v) :: rest => "\x27" ++ k ++ "\x27: " ++ pyRepr v ++ ", " ++ pyReprFields rest

/-- Python `str(v)` for the modelled values. -/
def pyStr : Val → String
  | .vStr s => s
  | v => pyRepr v

/-- Python `d.get(k, default)` on a dict modelled as an association list. -/
def pyGetD (d : List (String × Val)) (k : String) (default : Val) : Val :=
  (List.lookup k d).getD default

/-- Python `s.strip()` (whitespace strip from both ends). -/
def pyStrip (s : String) : String :=
  String.mk (((s.data.dropWhile Char.isWhitespace).reverse.dropWhile Char.isWhitespace).reverse)

/-- Python `s.split('.')` on the character list of `s`. -/
def pySplitDot : List Char → List (List Char)
  | [] => [[]]
  | c :: cs =>
    if c = '.' then [] :: pySplitDot cs
    else
      match pySplitDot cs with
      | p :: ps => (c :: p) :: ps
      | [] => [[c]]

/-- The dot-path parts of a `\x7b\x7b...\x7d\x7d` capture:
`var_path.strip().split('.')`. -/
def pathParts (inner : String) : List String :=
  (pySplitDot (pyStrip inner).data).map String.mk

/-- The walk of `shared.py`'s `VariableResolver.resolve` replacer
(`src/utils/shared.py` lines 243-248): follow the dot-path through nested
dicts, taking `result.get(part, {})` at each part; if a non-dict is reached
while parts remain, the replacer returns the original text — modelled as
`none`. -/
def walkShared : Val → List String → Option Val
  | v, [] => some v
  | .vDict d, p :: ps => walkShared (pyGetD d p (.vDict [])) ps
  | _, _ :: _ => none

/-- The walk of `chain_builder.py`'s `VariableResolver._resolve_variable`
replacer (`src/workflow/chain_builder.py` lines 332-334): `result =
result.get(part, {})` with no isinstance guard, so reaching a non-dict while
parts remain raises `AttributeError`. -/
def walkChain : Val → List String → Except String Val
  | v, [] => .ok v
  | .vDict d, p :: ps => walkChain (pyGetD d p (.vDict [])) ps
  | _, _ :: _ => .error "AttributeError"

/-- The replacer of `shared.py`'s resolve applied to one `{{...}}` occurrence:
`orig` is the whole match (`match.group(0)`), `inner` the captured group. -/
def sharedReplacer (orig : String) (inner : String) (ctx : Val) : String :=
  match walkShared ctx (pathParts inner) with
  | none => orig
  | some v => if pyTruthy v then pyStr v else orig

/-- The replacer of the workflow mixin `_resolve_variable` applied to one
`{{...}}` occurrence; may raise (line 334: `result.get` on a non-dict). -/
def chainReplacer (orig : String) (inner : String) (ctx : Val) : Except String String :=
  match walkChain ctx (pathParts inner) with
  | .error e => .error e
  | .ok v => .ok (if pyTruthy v then pyStr v else orig)

/-- Scan for the lazy group of the pattern `\x7b\x7b(.*?)\x7d\x7d`: from the
current position, the shortest newline-free span followed by the closing
delimiter. Returns the group and the remaining input. -/
def scanInner : List Char → Option (List Char × List Char)
  | '}' :: '}' :: rest => some ([], rest)
  | c :: cs =>
    if c = '\n' then none
    else
      match scanInner cs with
      | none => none
      | some (i, r) => some (c :: i, r)
  | [] => none

/-- The full `re.sub` pass of `shared.py`'s `VariableResolver.resolve` over a
text: left-to-right, each occurrence of the pattern is rewritten by the
replacer, and scanning resumes after the match. Total: this resolver never
raises. The `fuel` argument only serves structural termination; every call
consumes at least one input character, so `fuel = input length` is enough. -/
def resolveSharedAux (ctx : Val) : Nat → List Char → List Char
  | _, [] => []
  | 0, l => l
  | fuel + 1, '{' :: '{' :: rest =>
    match scanInner rest with
    | some (inner, after) =>
      (sharedReplacer (String.mk ('{' :: '{' :: (inner ++ ['}', '}']))) (String.mk inner) ctx).data
        ++ resolveSharedAux ctx fuel after
    | none => '{' :: resolveSharedAux ctx fuel ('{' :: rest)
  | fuel + 1, c :: cs => c :: resolveSharedAux ctx fuel cs

/-- `shared.py` `VariableResolver.resolve(text, context)` (lines 220-252).
The non-string passthrough (line 234) is not modelled: the claims only
exercise string inputs. -/
def sharedResolve (text : String) (ctx : Val) : String :=
  String.mk (resolveSharedAux ctx text.data.length text.data)

/-- The full `re.sub` pass of the workflow mixin `_resolve_variable`
(`chain_builder.py` lines 318-338); the replacer may raise, and `re.sub`
propagates the exception. Fuel as in `resolveSharedAux`. -/
def resolveChainAux (ctx : Val) : Nat → List Char → Except String (List Char)
  | _, [] => .ok []
  | 0, l => .ok l
  | fuel + 1, '{' :: '{' :: rest =>
    match scanInner rest with
    | some (inner, after) =>
      match chainReplacer (String.mk ('{' :: '{' :: (inner ++ ['}', '}']))) (String.mk inner) ctx with
      | .error e => .error e
      | .ok r =>
        match resolveChainAux ctx fuel after with
        | .error e => .error e
        | .ok tail => .ok (r.data ++ tail)
    | none =>
      match resolveChainAux ctx fuel ('{' :: rest) with
      | .error e => .error e
      | .ok tail => .ok ('{' :: tail)
  | fuel + 1, c :: cs =>
    match resolveChainAux ctx fuel cs with
    | .error e => .error e
    | .ok tail => .ok (c :: tail)

/-- `chain_builder.py` `VariableResolver._resolve_variable(value, context)`
for string inputs (the non-string passthrough of line 321 is not modelled). -/
def chainResolveVariable (text : String) (ctx : Val) : Except String String :=
  match resolveChainAux ctx text.data.length text.data with
  | .error e => .error e
  | .ok l => .ok (String.mk l)

/-- Characters of the regex class `[><=!]` in the condition pattern. -/
def isOpChar (c : Char) : Bool :=
  c == '>' || c == '<' || c == '=' || c == '!'

/-- Match the part of the condition pattern that follows the closing
delimiter of the first group. The pattern source is the RAW string
`r'{{(.+?)}}\\s*([><=!]+)\\s*(.+)'` (`chain_builder.py` line 127), so the
regex engine sees `\\` (one literal backslash) followed by `s*` (zero or
more letters `s`) — NOT whitespace. Hence: a literal backslash, any number
of `s`, one or more operator characters, a literal backslash, any number of
`s`, then at least one character for group 3 (`.` never matches a newline;
when everything after the second backslash is `s`s, the regex engine gives
one `s` back to satisfy `(.+)`). Returns groups 2 and 3. -/
def matchAfterGroup1 (l : List Char) : Option (List Char × List Char) :=
  match l with
  | '\\' :: rest =>
    let rest2 := rest.dropWhile (fun c => c == 's')
    let op := rest2.takeWhile isOpChar
    let rest3 := rest2.dropWhile isOpChar
    if op.isEmpty then none
    else
      match rest3 with
      | '\\' :: rest4 =>
        match rest4.dropWhile (fun c => c == 's') with
        | c :: cs =>
          if c == '\n' then
            if rest4.takeWhile (fun c => c == 's') == [] then none else some (op, ['s'])
          else some (op, (c :: cs).takeWhile (fun x => x != '\n'))
        | [] =>
          if rest4.takeWhile (fun c => c == 's') == [] then none else some (op, ['s'])
      | _ => none
  | _ => none

/-- Backtracking search for the lazy group `(.+?)` of the condition pattern:
grow the group one (non-newline) character at a time; at each size, require
the closing delimiter and then the rest of the pattern
(`matchAfterGroup1`). `fuel = remaining input length` bounds the recursion. -/
def g1Search : Nat → List Char → List Char → Option (List Char × List Char × List Char)
  | 0, _, _ => none
  | _ + 1, _, [] => none
  | fuel + 1, acc, '}' :: '}' :: tail =>
    match (if acc.isEmpty then none else matchAfterGroup1 tail) with
    | some (op, g3) => some (acc.reverse, op, g3)
    | none => g1Search fuel ('}' :: acc) ('}' :: tail)
  | fuel + 1, acc, c :: cs =>
    if c == '\n' then none else g1Search fuel (c :: acc) cs

/-- `re.match(r'{{(.+?)}}\\s*([><=!]+)\\s*(.+)', condition)` of
`ConditionalStep._evaluate_condition` (line 127), returning
`match.groups()` when the pattern matches at the start of the string. -/
def condMatch (condition : String) : Option (String × String × String) :=
  match condition.data with
  | '{' :: '{' :: rest =>
    match g1Search rest.length [] rest with
    | some (g1, op, g3) => some (String.mk g1, String.mk op, String.mk g3)
    | none => none
  | _ => none

/-- Python `s.isdigit()` restricted to ASCII (no exercised input needs the
Unicode digit categories). -/
def pyIsDigit (s : List Char) : Bool :=
  !s.isEmpty && s.all Char.isDigit

/-- Python `s.strip('"\'')`: strip double and single quotes from both ends. -/
def pyStripQuotes (s : String) : String :=
  let q : Char → Bool := fun c => c == '"' || c == Char.ofNat 39
  String.mk (((s.data.dropWhile q).reverse.dropWhile q).reverse)

/-- The right-hand side of a parsed condition after line 135: a float (when
`value.replace('.', '').isdigit()`) or a quote-stripped string. The numeric
payload keeps the source text only: every comparison of the (always-string)
left side against a float either raises `TypeError` (`>`, `<`, `>=`, `<=`)
or is decided by type alone (`==`, `!=`), so the float's value is never
inspected. -/
inductive CondRhs where
  | num : String → CondRhs
  | str : String → CondRhs

/-- Line 135: `value = float(value) if value.replace('.', '').isdigit() else
value.strip('"\'')`. `float` raises `ValueError` when the digits-and-dots
text contains more than one dot. -/
def parseCondValue (value : String) : Except String CondRhs :=
  if pyIsDigit (value.data.filter (fun c => c != '.')) then
    if value.data.count '.' ≤ 1 then .ok (.num value) else .error "ValueError"
  else .ok (.str (pyStripQuotes value))

/-- `ops.get(operator, lambda a, b: False)(var_value, value)` (lines 138-147).
`var_value` is always a string (`_resolve_variable` returns the `re.sub`
result). Python string comparison is lexicographic by code point; comparing
a string with a float raises `TypeError` for the four order operators, while
`==`/`!=` are decided by type mismatch alone. An operator outside the table
hits the default lambda and yields `False`. -/
def applyOp (op : String) (a : String) (rhs : CondRhs) : Except String Bool :=
  match rhs with
  | .num _ =>
    if op == "==" then .ok false
    else if op == "!=" then .ok true
    else if op == ">" || op == "<" || op == ">=" || op == "<=" then .error "TypeError"
    else .ok false
  | .str b =>
    if op == ">" then .ok (decide (b < a))
    else if op == "<" then .ok (decide (a < b))
    else if op == ">=" then .ok (!(decide (a < b)))
    else if op == "<=" then .ok (!(decide (b < a)))
    else if op == "==" then .ok (a == b)
    else if op == "!=" then .ok (a != b)
    else .ok false

/-- `ConditionalStep._evaluate_condition(condition, context)`
(`chain_builder.py` lines 120-147). Any exception raised inside
(AttributeError from the resolver, ValueError from `float`, TypeError from
an order comparison) propagates to the caller as `.error`. -/
def evaluate_condition (condition : String) (ctx : Val) : Except String Bool :=
  match condMatch condition with
  | none => .ok false
  | some (varPath, op, value) =>
    match chainResolveVariable ("\x7b\x7b" ++ varPath ++ "\x7d\x7d") ctx with
    | .error e => .error e
    | .ok varValue =>
      match parseCondValue value with
      | .error e => .error e
      | .ok rhs => applyOp op varValue rhs

/-- A workflow step as the run loop sees it: its identifier, its type string,
and its `execute` method. The five concrete `execute` implementations call
external collaborators (web harvester, LLM iterator, scorer, scanner), so a
step's behaviour is modelled as a function from the execution context (a
top-level dict) to either an output dict or the message of a raised
exception. -/
structure Step where
  id : String
  type : String
  behavior : List (String × Val) → Except String (List (String × Val))

/-- One entry of the execution log, mirroring the dict literals of
`Workflow.run`: `none` in an `Option` field means the key is absent from the
entry. The success entry (lines 240-246) has `duration` and `output`; the
error entry (lines 263-268) has only `error` besides id, type and status. -/
structure LogEntry where
  step_id : String
  step_type : String
  status : String
  duration : Option Nat
  output : Option (List (String × Val))
  error : Option String

/-- The success log entry of lines 240-246. -/
def mkSuccess (sid stype : String) (d : Nat) (out : List (String × Val)) : LogEntry :=
  ⟨sid, stype, "success", some d, some out, none⟩

/-- The error log entry of lines 263-268 (no duration key). -/
def mkError (sid stype msg : String) : LogEntry :=
  ⟨sid, stype, "error", none, none, some msg⟩

/-- Python `d[k] = v` on an insertion-ordered dict: overwrite in place if the
key exists, else append. -/
def setKey (ctx : List (String × Val)) (k : String) (v : Val) : List (String × Val) :=
  if ctx.any (fun p => p.1 == k) then ctx.map (fun p => if p.1 == k then (k, v) else p)
  else ctx ++ [(k, v)]

/-- Python `str(KeyError(k))`, the message of a failed subscript. -/
def keyErrorMsg (k : String) : String :=
  "\x27" ++ k ++ "\x27"

/-- One iteration of the `for` loop of `Workflow.run` (lines 227-270) for
step `st` with measured duration `d`: the whole body runs inside
`try/except`. Returns the new context, the new log, and whether the loop
`break`s. On success the output is stored in the context and a success
entry logged; then the safety-halt check (line 252) reads
`output.get('safe')` and, if falsy for a `security_scan` step, prints
`output['risk_level']` (a `KeyError` here is caught by the same `except`,
appending a second, error, entry) and breaks; the `conditional` check (lines
256-258) subscripts `output['condition_met']` and, when that is falsy,
`output['branch']` — either subscript can likewise raise; the prints
themselves change no state. On an exception from `execute` an error entry is
appended and the loop breaks. -/
def processStep (st : Step) (d : Nat) (ctx : List (String × Val)) (log : List LogEntry) :
    List (String × Val) × List LogEntry × Bool :=
  match st.behavior ctx with
  | .error e => (ctx, log ++ [mkError st.id st.type e], true)
  | .ok out =>
    let ctx' := setKey ctx st.id (.vDict out)
    let log' := log ++ [mkSuccess st.id st.type d out]
    if st.type == "security_scan" && !(pyTruthy (pyGetD out "safe" .vNone)) then
      match List.lookup "risk_level" out with
      | some _ => (ctx', log', true)
      | none => (ctx', log' ++ [mkError st.id st.type (keyErrorMsg "risk_level")], true)
    else if st.type == "conditional" then
      match List.lookup "condition_met" out with
      | none => (ctx', log' ++ [mkError st.id st.type (keyErrorMsg "condition_met")], true)
      | some v =>
        if pyTruthy v then (ctx', log', false)
        else
          match List.lookup "branch" out with
          | none => (ctx', log' ++ [mkError st.id st.type (keyErrorMsg "branch")], true)
          | some _ => (ctx', log', false)
    else (ctx', log', false)

/-- The `for` loop of `Workflow.run` over the remaining steps; `i` is the
index used to query the duration oracle `durs`. The boolean records whether
the loop stopped early (`break`). -/
def runSteps (durs : Nat → Nat) : List Step → Nat → List (String × Val) → List LogEntry →
    List (String × Val) × List LogEntry × Bool
  | [], _, ctx, log => (ctx, log, false)
  | st :: rest, i, ctx, log =>
    match processStep st (durs i) ctx log with
    | (ctx', log', true) => (ctx', log', true)
    | (ctx', log', false) => runSteps durs rest (i + 1) ctx' log'

/-- The mutable state of a `Workflow` object (`__init__`, lines 210-216):
`context` and `execution_log` are instance attributes, initialised once to
`{}` and `[]` when the object is constructed. -/
structure Workflow where
  id : String
  name : String
  description : String
  steps : List Step
  context : List (String × Val)
  execution_log : List LogEntry

/-- `Workflow(workflow_id, name, description, steps)`. -/
def Workflow.init (wid name description : String) (steps : List Step) : Workflow :=
  ⟨wid, name, description, steps, [], []⟩

/-- The dict returned by `Workflow.run` (lines 276-284). -/
structure RunReport where
  workflow_id : String
  name : String
  status : String
  duration : Nat
  steps_executed : Nat
  context : List (String × Val)
  log : List LogEntry

/-- `Workflow.run(inputs)` (lines 218-284). `self.context` is reassigned to
the fresh dict `{'inputs': inputs}` (line 224); `self.execution_log` is NOT
reassigned, so the loop appends to whatever the attribute already holds.
The returned status is the literal `'completed'` (line 279) and
`steps_executed` is `len(self.execution_log)` (line 281). `durs` and
`total` are the wall-clock oracles for the per-step and overall measured
durations. Returns the updated object state together with the report. -/
def Workflow.run (w : Workflow) (inputs : List (String × Val)) (durs : Nat → Nat)
    (total : Nat) : Workflow × RunReport :=
  let ctx0 : List (String × Val) := [("inputs", Val.vDict inputs)]
  match runSteps durs w.steps 0 ctx0 w.execution_log with
  | (ctx, log, _) =>
    ({ w with context := ctx, execution_log := log },
     { workflow_id := w.id, name := w.name, status := "completed", duration := total,
       steps_executed := log.length, context := ctx, log := log })

/-- The step data of the builder and of the exported document: `to_dict`
(lines 25-30) keeps exactly `id`, `type` and `config`. -/
structure StepDef where
  id : String
  type : String
  config : List (String × Val)

/-- The keys of `ChainBuilder.STEP_TYPES` (lines 152-158). -/
def STEP_TYPES : List String :=
  ["harvest_web", "dna_iterate", "quality_score", "security_scan", "conditional"]

/-- `ChainBuilder.__init__` state (lines 160-163). -/
structure ChainBuilder where
  steps : List StepDef
  name : Option String
  description : Option String

/-- `ChainBuilder()`. -/
def ChainBuilder.init : ChainBuilder :=
  ⟨[], none, none⟩

/-- `ChainBuilder.add_step(step_type, config, step_id)` (lines 165-176):
unknown types raise `ValueError`; a missing id defaults to
`f"{step_type}_{len(self.steps)}"`. Returns the updated builder and the id. -/
def ChainBuilder.add_step (b : ChainBuilder) (step_type : String)
    (config : List (String × Val)) (step_id : Option String) :
    Except String (ChainBuilder × String) :=
  if STEP_TYPES.contains step_type then
    let sid := step_id.getD (step_type ++ "_" ++ toString b.steps.length)
    .ok ({ b with steps := b.steps ++ [⟨sid, step_type, config⟩] }, sid)
  else .error ("Unknown step type: " ++ step_type)

/-- The step-definition view of a built workflow; `ChainBuilder.build`
(lines 178-188) passes the accumulated steps to the `Workflow` constructor,
with a generated uuid supplied here as an oracle. -/
structure WorkflowDef where
  id : String
  name : String
  description : String
  steps : List StepDef

/-- `ChainBuilder.build(name, description)`. -/
def ChainBuilder.build (b : ChainBuilder) (uuid name description : String) : WorkflowDef :=
  ⟨uuid, name, description, b.steps⟩

/-- The document produced by `Workflow.export` (lines 286-297), with the
YAML serialisation itself assumed faithful (`yaml.dump` of, then
`yaml.safe_load` back to, this mapping of strings, lists and dicts). -/
structure ExportDoc where
  name : String
  description : String
  version : String
  created_at : String
  steps : List StepDef

/-- `Workflow.export()`: `created_at` is the `datetime.now().isoformat()`
oracle. -/
def WorkflowDef.export (w : WorkflowDef) (now : String) : ExportDoc :=
  ⟨w.name, w.description, "1.0", now, w.steps⟩

/-- The loop body sequence of `ChainBuilder.from_yaml` (lines 190-205):
`add_step` for each document step (the exported documents always carry an
explicit id), then `build`. A `ValueError` from `add_step` propagates. -/
def ChainBuilder.from_yaml_steps (b : ChainBuilder) : List StepDef → Except String ChainBuilder
  | [] => .ok b
  | sd :: rest =>
    match b.add_step sd.type sd.config (some sd.id) with
    | .error e => .error e
    | .ok (b', _) => ChainBuilder.from_yaml_steps b' rest

/-- `ChainBuilder.from_yaml` applied to an already-parsed document. -/
def ChainBuilder.from_yaml (b : ChainBuilder) (doc : ExportDoc) (uuid : String) :
    Except String WorkflowDef :=
  let b1 := { b with name := some doc.name, description := some doc.description }
  match ChainBuilder.from_yaml_steps b1 doc.steps with
  | .error e => .error e
  | .ok b2 => .ok (b2.build uuid doc.name doc.description)

/-- A step's outputs carry the keys its own class always writes: the real
`SecurityScanStep.execute` always returns a `risk_level` key and the real
`ConditionalStep.execute` always returns `condition_met` and `branch` keys,
so the subscripts in the run loop's prints cannot raise for them. -/
def OutputsWellKeyed (st : Step) : Prop :=
  ∀ ctx out, st.behavior ctx = .ok out →
    (st.type = "security_scan" → (List.lookup "risk_level" out).isSome) ∧
    (st.type = "conditional" →
      (List.lookup "condition_met" out).isSome ∧ (List.lookup "branch" out).isSome)

/-- A `HarvestStep` whose collaborator stub succeeds, with the output shape
of `HarvestStep.execute` (lines 43-47). -/
def harvestStep : Step :=
  ⟨"harvest_web_0", "harvest_web", fun _ =>
    .ok [("success", .vBool true), ("content", .vStr "text"), ("metadata", .vDict [])]⟩

/-- A `SecurityScanStep` whose collaborator stub reports unsafe content, with
the output shape of `SecurityScanStep.execute` (lines 99-104). -/
def scanUnsafeStep : Step :=
  ⟨"security_scan_1", "security_scan", fun _ =>
    .ok [("safe", .vBool false), ("risk_score", .vInt 90),
         ("risk_level", .vStr "high"), ("issues_count", .vInt 2)]⟩

/-- A `QualityScoreStep` whose collaborator stub succeeds, with the output
shape of `QualityScoreStep.execute` (lines 82-86). -/
def qualityStep : Step :=
  ⟨"quality_score_2", "quality_score", fun _ =>
    .ok [("total_score", .vInt 8), ("breakdown", .vDict []), ("passed", .vBool true)]⟩

/-- An `IterateStep` whose collaborator call raises. -/
def failingStep : Step :=
  ⟨"dna_iterate_1", "dna_iterate", fun _ => .error "boom"⟩

end PromptSync

namespace PromptSync

theorem processStep_log_eq (st : Step) (d : Nat) (ctx : List (String × Val))
    (log : List LogEntry) :
    processStep st d ctx log =
      ((processStep st d ctx []).1, log ++ (processStep st d ctx []).2.1,
        (processStep st d ctx []).2.2) := by
  unfold processStep
  cases st.behavior ctx with
  | error e => simp
  | ok out =>
    dsimp only
    split
    · cases List.lookup "risk_level" out <;> simp
    · split
      · cases List.lookup "condition_met" out with
        | none => simp
        | some v =>
          dsimp only
          split
          · simp
          · cases List.lookup "branch" out <;> simp
      · simp

theorem runSteps_log_eq (durs : Nat → Nat) (steps : List Step) (i : Nat)
    (ctx : List (String × Val)) (log : List LogEntry) :
    runSteps durs steps i ctx log =
      ((runSteps durs steps i ctx []).1, log ++ (runSteps durs steps i ctx []).2.1,
        (runSteps durs steps i ctx []).2.2) := by
  induction steps generalizing i ctx log with
  | nil => simp [runSteps]
  | cons st rest ih =>
    simp only [runSteps]
    rw [processStep_log_eq st (durs i) ctx log]
    rcases hps : processStep st (durs i) ctx [] with ⟨c', l', b'⟩
    cases b' with
    | true => simp
    | false =>
      simp only
      rw [ih (i + 1) c' (log ++ l'), ih (i + 1) c' l']
      simp

theorem runSteps_append (durs : Nat → Nat) (a b : List Step) (i : Nat)
    (ctx : List (String × Val)) (log : List LogEntry) :
    runSteps durs (a ++ b) i ctx log =
      (match runSteps durs a i ctx log with
       | (c, l, true) => (c, l, true)
       | (c, l, false) => runSteps durs b (i + a.length) c l) := by
  induction a generalizing i ctx log with
  | nil => simp [runSteps]
  | cons st rest ih =>
    simp only [List.cons_append, runSteps]
    rcases hps : processStep st (durs i) ctx log with ⟨c', l', b'⟩
    cases b' with
    | true => simp
    | false =>
      simp only [List.append_eq]
      rw [ih (i + 1) c' l']
      rcases runSteps durs rest (i + 1) c' l' with ⟨c'', l'', b''⟩
      cases b'' <;> simp [Nat.add_assoc, Nat.add_comm 1 rest.length]

theorem processStep_noStop (st : Step) (d : Nat) (ctx : List (String × Val))
    (log : List LogEntry) (c : List (String × Val)) (l : List LogEntry)
    (h : processStep st d ctx log = (c, l, false)) :
    ∃ out, st.behavior ctx = .ok out ∧ c = setKey ctx st.id (.vDict out) ∧
      l = log ++ [mkSuccess st.id st.type d out] := by
  unfold processStep at h
  cases hb : st.behavior ctx with
  | error e => rw [hb] at h; simp at h
  | ok out =>
    rw [hb] at h
    dsimp only at h
    refine ⟨out, rfl, ?_⟩
    split at h
    · split at h <;> simp_all
    · split at h
      · split at h
        · simp_all
        · split at h
          · simp_all
          · split at h <;> simp_all
      · simp_all


theorem processStep_cases (st : Step) (d : Nat) (ctx : List (String × Val))
    (log : List LogEntry) (c : List (String × Val)) (l : List LogEntry) (b : Bool)
    (h : processStep st d ctx log = (c, l, b)) :
    (∃ e, st.behavior ctx = .error e ∧ c = ctx ∧
      l = log ++ [mkError st.id st.type e] ∧ b = true) ∨
    (∃ out, st.behavior ctx = .ok out ∧ c = setKey ctx st.id (.vDict out) ∧
      (l = (log ++ [mkSuccess st.id st.type d out]) ∨
       ∃ msg, l = (log ++ [mkSuccess st.id st.type d out]) ++ [mkError st.id st.type msg])) := by
  unfold processStep at h
  rcases hb : st.behavior ctx with e | out <;> rw [hb] at h <;> dsimp only at h
  · simp only [Prod.mk.injEq] at h
    obtain ⟨rfl, rfl, rfl⟩ := h
    exact Or.inl ⟨e, rfl, rfl, rfl, rfl⟩
  · refine Or.inr ?_
    split at h
    · split at h <;> simp only [Prod.mk.injEq] at h <;> obtain ⟨rfl, rfl, rfl⟩ := h
      · exact ⟨out, rfl, rfl, Or.inl rfl⟩
      · exact ⟨out, rfl, rfl, Or.inr ⟨_, rfl⟩⟩
    · split at h
      · split at h
        · simp only [Prod.mk.injEq] at h
          obtain ⟨rfl, rfl, rfl⟩ := h
          exact ⟨out, rfl, rfl, Or.inr ⟨_, rfl⟩⟩
        · split at h
          · simp only [Prod.mk.injEq] at h
            obtain ⟨rfl, rfl, rfl⟩ := h
            exact ⟨out, rfl, rfl, Or.inl rfl⟩
          · split at h <;> simp only [Prod.mk.injEq] at h <;> obtain ⟨rfl, rfl, rfl⟩ := h
            · exact ⟨out, rfl, rfl, Or.inr ⟨_, rfl⟩⟩
            · exact ⟨out, rfl, rfl, Or.inl rfl⟩
      · simp only [Prod.mk.injEq] at h
        obtain ⟨rfl, rfl, rfl⟩ := h
        exact ⟨out, rfl, rfl, Or.inl rfl⟩

theorem processStep_wellKeyed (st : Step) (d : Nat) (ctx : List (String × Val))
    (log : List LogEntry) (c : List (String × Val)) (l : List LogEntry) (b : Bool)
    (hwk : OutputsWellKeyed st) (h : processStep st d ctx log = (c, l, b)) :
    (∃ out, st.behavior ctx = .ok out ∧ l = log ++ [mkSuccess st.id st.type d out]) ∨
    (∃ e, st.behavior ctx = .error e ∧ c = ctx ∧
      l = log ++ [mkError st.id st.type e] ∧ b = true) := by
  unfold processStep at h
  rcases hb : st.behavior ctx with e | out <;> rw [hb] at h <;> dsimp only at h
  · simp only [Prod.mk.injEq] at h
    obtain ⟨rfl, rfl, rfl⟩ := h
    exact Or.inr ⟨e, rfl, rfl, rfl, rfl⟩
  · rcases hwk ctx out hb with ⟨hsec, hcond⟩
    refine Or.inl ⟨out, rfl, ?_⟩
    split at h
    · rename_i hsafe
      simp only [Bool.and_eq_true, beq_iff_eq] at hsafe
      have hrl := hsec hsafe.1
      split at h
      · simp only [Prod.mk.injEq] at h
        obtain ⟨rfl, rfl, rfl⟩ := h
        rfl
      · simp_all
    · split at h
      · rename_i hc
        simp only [beq_iff_eq] at hc
        have hcm := hcond hc
        split at h
        · simp_all
        · split at h
          · simp only [Prod.mk.injEq] at h
            obtain ⟨rfl, rfl, rfl⟩ := h
            rfl
          · split at h
            · simp_all
            · simp only [Prod.mk.injEq] at h
              obtain ⟨rfl, rfl, rfl⟩ := h
              rfl
      · simp only [Prod.mk.injEq] at h
        obtain ⟨rfl, rfl, rfl⟩ := h
        rfl

theorem runSteps_noStop (durs : Nat → Nat) (steps : List Step) (i : Nat)
    (ctx c : List (String × Val)) (l : List LogEntry)
    (h : runSteps durs steps i ctx [] = (c, l, false)) :
    l.length = steps.length ∧
    ∀ k, k < steps.length →
      ∃ st out, steps.get? k = some st ∧
        l.get? k = some (mkSuccess st.id st.type (durs (i + k)) out) := by
  induction steps generalizing i ctx c l with
  | nil =>
    simp only [runSteps, Prod.mk.injEq] at h
    obtain ⟨-, rfl, -⟩ := h
    simp
  | cons st rest ih =>
    simp only [runSteps] at h
    rcases hps : processStep st (durs i) ctx [] with ⟨c1, l1, b1⟩
    rw [hps] at h
    cases b1 with
    | true => simp only [Prod.mk.injEq] at h; exact absurd h.2.2 (by simp)
    | false =>
      obtain ⟨out, hbeh, hc1, hl1⟩ := processStep_noStop st (durs i) ctx [] c1 l1 hps
      dsimp only at h
      rw [runSteps_log_eq durs rest (i + 1) c1 l1] at h
      rcases htl : runSteps durs rest (i + 1) c1 [] with ⟨c2, l2, b2⟩
      rw [htl] at h
      simp only [Prod.mk.injEq] at h
      obtain ⟨rfl, rfl, hb⟩ := h
      subst hb
      obtain ⟨hlen, hk⟩ := ih (i + 1) c1 c2 l2 htl
      subst hl1
      refine ⟨by simp [hlen], ?_⟩
      intro k hklt
      cases k with
      | zero => exact ⟨st, out, rfl, by simp⟩
      | succ q =>
        obtain ⟨st2, out2, hst2, hl2⟩ := hk q (by simpa using hklt)
        refine ⟨st2, out2, by simpa using hst2, ?_⟩
        have harith : i + 1 + q = i + (q + 1) := by omega
        simpa [harith] using hl2

theorem setKey_keys_fresh (ctx : List (String × Val)) (k : String) (v : Val)
    (h : k ∉ ctx.map Prod.fst) :
    (setKey ctx k v).map Prod.fst = ctx.map Prod.fst ++ [k] := by
  unfold setKey
  have hany : ctx.any (fun p => p.1 == k) = false := by
    rw [List.any_eq_false]
    rintro ⟨k2, v2⟩ hp
    simp only [beq_iff_eq]
    rintro rfl
    exact h (List.mem_map.mpr ⟨(k2, v2), hp, rfl⟩)
  simp [hany]


theorem runSteps_keys (durs : Nat → Nat) (steps : List Step) (i : Nat)
    (ctx c : List (String × Val)) (l : List LogEntry) (b : Bool)
    (h : runSteps durs steps i ctx [] = (c, l, b))
    (hnodup : (steps.map Step.id).Nodup)
    (hfresh : ∀ st ∈ steps, st.id ∉ ctx.map Prod.fst) :
    ∃ m, m ≤ steps.length ∧
      c.map Prod.fst = ctx.map Prod.fst ++ (steps.take m).map Step.id ∧
      l.countP (fun e => e.status == "success") = m := by
  induction steps generalizing i ctx c l b with
  | nil =>
    simp only [runSteps, Prod.mk.injEq] at h
    obtain ⟨rfl, rfl, -⟩ := h
    exact ⟨0, by simp⟩
  | cons st rest ih =>
    have hnd : st.id ∉ rest.map Step.id ∧ (rest.map Step.id).Nodup := by
      rw [List.map_cons, List.nodup_cons] at hnodup
      exact hnodup
    have hfr : st.id ∉ ctx.map Prod.fst := hfresh st (by simp)
    simp only [runSteps] at h
    rcases hps : processStep st (durs i) ctx [] with ⟨c1, l1, b1⟩
    rw [hps] at h
    cases b1 with
    | true =>
      dsimp only at h
      simp only [Prod.mk.injEq] at h
      obtain ⟨rfl, rfl, -⟩ := h
      rcases processStep_cases st (durs i) ctx [] c1 l1 true hps with
        ⟨e, -, hc, hl, -⟩ | ⟨out, -, hc, hl⟩
      · refine ⟨0, by simp, by simp [hc], ?_⟩
        simp [hl, mkError]
      · refine ⟨1, by simp, ?_, ?_⟩
        · rw [hc, setKey_keys_fresh ctx st.id (.vDict out) hfr]
          simp
        · rcases hl with hl | ⟨msg, hl⟩ <;>
            simp [hl, mkSuccess, mkError, List.countP_cons, List.countP_append]
    | false =>
      obtain ⟨out, hbeh, hc1, hl1⟩ := processStep_noStop st (durs i) ctx [] c1 l1 hps
      dsimp only at h
      rw [runSteps_log_eq durs rest (i + 1) c1 l1] at h
      rcases htl : runSteps durs rest (i + 1) c1 [] with ⟨c2, l2, b2⟩
      rw [htl] at h
      simp only [Prod.mk.injEq] at h
      obtain ⟨rfl, rfl, rfl⟩ := h
      have hkeys1 : c1.map Prod.fst = ctx.map Prod.fst ++ [st.id] := by
        rw [hc1, setKey_keys_fresh ctx st.id (.vDict out) hfr]
      have hfr2 : ∀ st2 ∈ rest, st2.id ∉ c1.map Prod.fst := by
        intro st2 hst2
        rw [hkeys1]
        simp only [List.mem_append, List.mem_singleton]
        rintro (hin | heq)
        · exact hfresh st2 (by simp [hst2]) hin
        · exact hnd.1 (List.mem_map.mpr ⟨st2, hst2, heq⟩)
      obtain ⟨m, hm, hck, hcount⟩ := ih (i + 1) c1 c2 l2 b2 htl hnd.2 hfr2
      refine ⟨m + 1, by simpa using Nat.succ_le_succ hm, ?_, ?_⟩
      · rw [List.take_succ_cons, List.map_cons, hck, hkeys1]
        simp
      · subst hl1
        simp [List.countP_append, List.countP_cons, mkSuccess, hcount, Nat.add_comm]

theorem runSteps_wellKeyed (durs : Nat → Nat) (steps : List Step) (i : Nat)
    (ctx c : List (String × Val)) (l : List LogEntry) (b : Bool)
    (hwf : ∀ st ∈ steps, OutputsWellKeyed st)
    (h : runSteps durs steps i ctx [] = (c, l, b)) :
    ∃ m, m ≤ steps.length ∧ l.length = m ∧
      ∀ k, k < m →
        ∃ st e, steps.get? k = some st ∧ l.get? k = some e ∧
          e.step_id = st.id ∧ e.step_type = st.type ∧
          ((e.status = "success" ∧ e.duration = some (durs (i + k)) ∧
            e.output.isSome ∧ e.error = none) ∨
           (e.status = "error" ∧ e.duration = none ∧ e.output = none ∧ e.error.isSome)) := by
  induction steps generalizing i ctx c l b with
  | nil =>
    simp only [runSteps, Prod.mk.injEq] at h
    obtain ⟨-, rfl, -⟩ := h
    exact ⟨0, by simp⟩
  | cons st rest ih =>
    have hwk : OutputsWellKeyed st := hwf st (by simp)
    simp only [runSteps] at h
    rcases hps : processStep st (durs i) ctx [] with ⟨c1, l1, b1⟩
    rw [hps] at h
    cases b1 with
    | true =>
      dsimp only at h
      simp only [Prod.mk.injEq] at h
      obtain ⟨rfl, rfl, -⟩ := h
      rcases processStep_wellKeyed st (durs i) ctx [] c1 l1 true hwk hps with
        ⟨out, -, hl⟩ | ⟨e, -, -, hl, -⟩
      · refine ⟨1, by simp, by simp [hl], ?_⟩
        intro k hk
        interval_cases k
        refine ⟨st, mkSuccess st.id st.type (durs i) out, rfl, by simp [hl], rfl, rfl, ?_⟩
        exact Or.inl ⟨rfl, by simp [mkSuccess], by simp [mkSuccess], rfl⟩
      · refine ⟨1, by simp, by simp [hl], ?_⟩
        intro k hk
        interval_cases k
        refine ⟨st, mkError st.id st.type e, rfl, by simp [hl], rfl, rfl, ?_⟩
        exact Or.inr ⟨rfl, rfl, rfl, by simp [mkError]⟩
    | false =>
      obtain ⟨out, hbeh, hc1, hl1⟩ := processStep_noStop st (durs i) ctx [] c1 l1 hps
      dsimp only at h
      rw [runSteps_log_eq durs rest (i + 1) c1 l1] at h
      rcases htl : runSteps durs rest (i + 1) c1 [] with ⟨c2, l2, b2⟩
      rw [htl] at h
      simp only [Prod.mk.injEq] at h
      obtain ⟨rfl, rfl, rfl⟩ := h
      obtain ⟨m, hm, hlen, hk⟩ :=
        ih (i + 1) c1 c2 l2 b2 (fun s hs => hwf s (by simp [hs])) htl
      subst hl1
      refine ⟨m + 1, by simpa using Nat.succ_le_succ hm, by simp [hlen], ?_⟩
      intro k hklt
      cases k with
      | zero =>
        refine ⟨st, mkSuccess st.id st.type (durs i) out, rfl, by simp, rfl, rfl, ?_⟩
        exact Or.inl ⟨rfl, by simp [mkSuccess], by simp [mkSuccess], rfl⟩
      | succ q =>
        obtain ⟨st2, e2, hst2, hl2, hid, hty, hshape⟩ := hk q (by omega)
        refine ⟨st2, e2, by simpa using hst2, by simpa using hl2, hid, hty, ?_⟩
        have harith : i + 1 + q = i + (q + 1) := by omega
        rcases hshape with ⟨h1, h2, h3, h4⟩ | hshape
        · exact Or.inl ⟨h1, by rw [← harith]; exact h2, h3, h4⟩
        · exact Or.inr hshape

/-- C1 counterexample: a run halted by an unsafe security scan (only 1 of 2
steps executed, seen in the log and context) still reports the literal
status string "completed" — `Workflow.run` line 279 hardcodes it, so the
status field does not equal the run's terminal state. -/
theorem halted_run_reports_completed_status :
    ((Workflow.init "wf-1" "sec" "" [scanUnsafeStep, qualityStep]).run []
        (fun _ => 0) 0).2.status = "completed" ∧
    ((Workflow.init "wf-1" "sec" "" [scanUnsafeStep, qualityStep]).run []
        (fun _ => 0) 0).2.log.length = 1 ∧
    ((Workflow.init "wf-1" "sec" "" [scanUnsafeStep, qualityStep]).run []
        (fun _ => 0) 0).2.context.map Prod.fst = ["inputs", "security_scan_1"] :=
  ⟨rfl, rfl, rfl⟩

/-- C1 (amended): the `status` field of the mapping returned by
`Workflow.run` is always the string "completed", whatever the terminal
state of the run; halts and failures are observable only via the log and
context, not via `status`. -/
theorem run_status_always_completed (w : Workflow) (inputs : List (String × Val))
    (durs : Nat → Nat) (total : Nat) :
    ((w.run inputs durs total).2).status = "completed" := by
  unfold Workflow.run
  rcases runSteps durs w.steps 0 [("inputs", Val.vDict inputs)] w.execution_log with ⟨c, l, b⟩
  rfl

/-- C4 counterexample: the workflow mixin `_resolve_variable` raises
`AttributeError` (it is not exception-free) when the walk meets a
non-mapping before the path is exhausted: resolving `(('a.b.c'))` in the
context `{a: {b: 5}}` calls `(5).get('c')`. -/
theorem chain_resolver_raises_on_nonmapping :
    chainResolveVariable "\x7b\x7ba.b.c\x7d\x7d"
      (.vDict [("a", .vDict [("b", .vInt 5)])]) = .error "AttributeError" := rfl

/-- C4 (amended): `shared.py`'s resolver is total and leaves failed walks
verbatim — a non-mapping met mid-path returns the original occurrence, and
a missing key yields the `\x7b\x7d` default whose falsiness also restores the
original occurrence; the workflow mixin resolver likewise leaves missing-key
walks verbatim, but (per the counterexample) raises on a non-mapping met
mid-path rather than falling back. -/
theorem resolver_miss_behaviour (orig inner : String) (ctx : Val) :
    (walkShared ctx (pathParts inner) = none → sharedReplacer orig inner ctx = orig) ∧
    (walkShared ctx (pathParts inner) = some (Val.vDict []) →
      sharedReplacer orig inner ctx = orig) ∧
    (walkChain ctx (pathParts inner) = .ok (Val.vDict []) →
      chainReplacer orig inner ctx = .ok orig) := by
  refine ⟨?_, ?_, ?_⟩
  · intro h
    simp [sharedReplacer, h]
  · intro h
    simp [sharedReplacer, h, pyTruthy]
  · intro h
    simp [chainReplacer, h, pyTruthy]

/-- C4 witness: `resolver_miss_behaviour` applied at concrete misses — a
non-mapping mid-path for the shared resolver, and a missing key for both
resolvers. -/
theorem resolver_miss_behaviour_witness :
    walkShared (Val.vDict [("a", Val.vInt 1)]) (pathParts "a.b") = none ∧
    sharedReplacer "\x7b\x7ba.b\x7d\x7d" "a.b" (Val.vDict [("a", Val.vInt 1)]) =
      "\x7b\x7ba.b\x7d\x7d" ∧
    walkShared (Val.vDict []) (pathParts "zz") = some (Val.vDict []) ∧
    sharedReplacer "\x7b\x7bzz\x7d\x7d" "zz" (Val.vDict []) = "\x7b\x7bzz\x7d\x7d" ∧
    walkChain (Val.vDict []) (pathParts "zz") = .ok (Val.vDict []) ∧
    chainReplacer "\x7b\x7bzz\x7d\x7d" "zz" (Val.vDict []) = .ok "\x7b\x7bzz\x7d\x7d" :=
  ⟨rfl,
   (resolver_miss_behaviour "\x7b\x7ba.b\x7d\x7d" "a.b" (Val.vDict [("a", Val.vInt 1)])).1 rfl,
   rfl,
   (resolver_miss_behaviour "\x7b\x7bzz\x7d\x7d" "zz" (Val.vDict [])).2.1 rfl,
   rfl,
   (resolver_miss_behaviour "\x7b\x7bzz\x7d\x7d" "zz" (Val.vDict [])).2.2 rfl⟩

/-- C5: the three specified condition evaluations. The code returns
`condition_met = false` for all three — including the first, which the claim
(and the function's own docstring example) expects to be true: the pattern
`r'\x7b\x7b(.+?)\x7d\x7d\\s*([><=!]+)\\s*(.+)'` requires a literal backslash
after the closing braces, so `"\x7b\x7ba.b\x7d\x7d > 80"` never matches and
`_evaluate_condition` falls back to `False` without raising. -/
theorem condition_examples_all_false :
    evaluate_condition "\x7b\x7ba.b\x7d\x7d > 80"
      (.vDict [("a", .vDict [("b", .vInt 85)])]) = .ok false ∧
    evaluate_condition "\x7b\x7ba.b\x7d\x7d > 80"
      (.vDict [("a", .vDict [("b", .vInt 70)])]) = .ok false ∧
    evaluate_condition "\x7b\x7ba.b\x7d\x7d ~~ 80"
      (.vDict [("a", .vDict [("b", .vInt 85)])]) = .ok false :=
  ⟨rfl, rfl, rfl⟩

/-- C6 counterexample: running the same `Workflow` object twice: the first
run's log has 1 entry, but the second run's log has 2 — it still contains
the first run's entry, and `steps_executed` of the second run reports 2
although the second run attempted only one step. -/
theorem second_run_log_accumulates :
    ((Workflow.init "wf-6" "demo" "" [harvestStep]).run [] (fun _ => 0) 0).2.log.length = 1 ∧
    ((((Workflow.init "wf-6" "demo" "" [harvestStep]).run [] (fun _ => 0) 0).1).run []
        (fun _ => 0) 0).2.log.length = 2 ∧
    ((((Workflow.init "wf-6" "demo" "" [harvestStep]).run [] (fun _ => 0) 0).1).run []
        (fun _ => 0) 0).2.steps_executed = 2 :=
  ⟨rfl, rfl, rfl⟩

/-- C6 (amended): each run reassigns `self.context` to a fresh dict seeded
from its own inputs (the report's context is a function of the steps and
inputs only, never of the previous context), but `self.execution_log` is
never reset: the run appends to the log already on the object, and
`steps_executed` is the length of that accumulated log. -/
theorem run_fresh_context_persistent_log (w : Workflow) (inputs : List (String × Val))
    (durs : Nat → Nat) (total : Nat) :
    ((w.run inputs durs total).2).log =
      w.execution_log ++ (runSteps durs w.steps 0 [("inputs", Val.vDict inputs)] []).2.1 ∧
    ((w.run inputs durs total).2).context =
      (runSteps durs w.steps 0 [("inputs", Val.vDict inputs)] []).1 ∧
    ((w.run inputs durs total).2).steps_executed = ((w.run inputs durs total).2).log.length := by
  unfold Workflow.run
  dsimp only
  rw [runSteps_log_eq durs w.steps 0 [("inputs", Val.vDict inputs)] w.execution_log]
  rcases runSteps durs w.steps 0 [("inputs", Val.vDict inputs)] [] with ⟨c, l, b⟩
  simp

/-- C8 counterexample: a walk that succeeds and reaches the value `0` does
NOT replace the occurrence: `resolve` of `(('score'))` against
`{score: 0}` leaves the occurrence verbatim because line 250 tests the
truthiness of the final value, not the success of the walk. -/
theorem falsy_resolution_left_verbatim :
    walkShared (.vDict [("score", .vInt 0)]) (pathParts "score") = some (.vInt 0) ∧
    sharedResolve "\x7b\x7bscore\x7d\x7d" (.vDict [("score", .vInt 0)]) =
      "\x7b\x7bscore\x7d\x7d" :=
  ⟨rfl, rfl⟩

/-- C8 (amended): when the walk succeeds to the end of the path, the
occurrence is replaced by the final value's textual representation only if
that value is truthy; falsy final values (numeric zero, False, the empty
string, empty dict, None) leave the occurrence verbatim, exactly like a
failed walk. -/
theorem successful_walk_replacement_iff_truthy (orig inner : String) (ctx v : Val)
    (h : walkShared ctx (pathParts inner) = some v) :
    sharedReplacer orig inner ctx = (if pyTruthy v then pyStr v else orig) := by
  simp [sharedReplacer, h]

/-- C8 witness: `successful_walk_replacement_iff_truthy` at a truthy value
(replaced by its text) and at zero (left verbatim). -/
theorem successful_walk_replacement_iff_truthy_witness :
    walkShared (Val.vDict [("user", Val.vDict [("name", Val.vStr "Alice")])])
      (pathParts "user.name") = some (Val.vStr "Alice") ∧
    sharedReplacer "\x7b\x7buser.name\x7d\x7d" "user.name"
      (Val.vDict [("user", Val.vDict [("name", Val.vStr "Alice")])]) = "Alice" ∧
    walkShared (Val.vDict [("score", Val.vInt 0)]) (pathParts "score") =
      some (Val.vInt 0) ∧
    sharedReplacer "\x7b\x7bscore\x7d\x7d" "score" (Val.vDict [("score", Val.vInt 0)]) =
      "\x7b\x7bscore\x7d\x7d" :=
  ⟨rfl,
   by
     have h2 := successful_walk_replacement_iff_truthy "\x7b\x7buser.name\x7d\x7d"
       "user.name" (Val.vDict [("user", Val.vDict [("name", Val.vStr "Alice")])])
       (Val.vStr "Alice") rfl
     simpa using h2,
   rfl,
   by
     have h2 := successful_walk_replacement_iff_truthy "\x7b\x7bscore\x7d\x7d"
       "score" (Val.vDict [("score", Val.vInt 0)]) (Val.vInt 0) rfl
     simpa using h2⟩

theorem setKey_keys_subset (ctx : List (String × Val)) (k : String) (v : Val) :
    ∀ x ∈ (setKey ctx k v).map Prod.fst, x ∈ ctx.map Prod.fst ∨ x = k := by
  intro x hx
  unfold setKey at hx
  split at hx
  · simp only [List.map_map, List.mem_map, Function.comp] at hx
    obtain ⟨p, hp, hpx⟩ := hx
    by_cases hpk : p.1 == k
    · right
      rw [← hpx]
      simp [hpk]
    · left
      refine List.mem_map.mpr ⟨p, hp, ?_⟩
      rw [← hpx]
      simp [hpk]
  · rw [List.map_append] at hx
    rcases List.mem_append.mp hx with h1 | h1
    · exact Or.inl h1
    · simp only [List.map_cons, List.map_nil, List.mem_singleton] at h1
      exact Or.inr h1

theorem runSteps_keys_subset (durs : Nat → Nat) (steps : List Step) (i : Nat)
    (ctx : List (String × Val)) (log : List LogEntry) (c : List (String × Val))
    (l : List LogEntry) (b : Bool)
    (h : runSteps durs steps i ctx log = (c, l, b)) :
    ∀ x ∈ c.map Prod.fst, x ∈ ctx.map Prod.fst ∨ x ∈ steps.map Step.id := by
  induction steps generalizing i ctx log c l b with
  | nil =>
    simp only [runSteps, Prod.mk.injEq] at h
    obtain ⟨rfl, -, -⟩ := h
    intro x hx
    exact Or.inl hx
  | cons st rest ih =>
    simp only [runSteps] at h
    rcases hps : processStep st (durs i) ctx log with ⟨c1, l1, b1⟩
    rw [hps] at h
    have hsub1 : ∀ x ∈ c1.map Prod.fst, x ∈ ctx.map Prod.fst ∨ x = st.id := by
      rcases processStep_cases st (durs i) ctx log c1 l1 b1 hps with
        ⟨e, -, hc, -, -⟩ | ⟨out, -, hc, -⟩
      · intro x hx
        exact Or.inl (hc ▸ hx)
      · intro x hx
        exact setKey_keys_subset ctx st.id (.vDict out) x (hc ▸ hx)
    cases b1 with
    | true =>
      dsimp only at h
      simp only [Prod.mk.injEq] at h
      obtain ⟨rfl, -, -⟩ := h
      intro x hx
      rcases hsub1 x hx with h1 | h1
      · exact Or.inl h1
      · exact Or.inr (by simp [h1])
    | false =>
      dsimp only at h
      intro x hx
      rcases ih (i + 1) c1 l1 c l b h x hx with h1 | h1
      · rcases hsub1 x h1 with h2 | h2
        · exact Or.inl h2
        · exact Or.inr (by simp [h2])
      · exact Or.inr (by simp [h1])

/-- C2: a security halt stops the run right after the unsafe scan: the
report's log is exactly one success entry per step up to and including the
scan (and nothing else), the scan's output is recorded in the context, and
the identifiers of all later steps are absent from the context. -/
theorem security_halt_stops_execution
    (wid nm ds : String) (pre : List Step) (scan : Step) (post : List Step)
    (inputs : List (String × Val)) (durs : Nat → Nat) (total : Nat)
    (ctx1 : List (String × Val)) (log1 : List LogEntry) (out : List (String × Val))
    (hpre : runSteps durs pre 0 [("inputs", Val.vDict inputs)] [] = (ctx1, log1, false))
    (htype : scan.type = "security_scan")
    (hbeh : scan.behavior ctx1 = .ok out)
    (hsafe : List.lookup "safe" out = some (Val.vBool false))
    (hrisk : (List.lookup "risk_level" out).isSome) :
    ((Workflow.init wid nm ds (pre ++ scan :: post)).run inputs durs total).2.log =
      log1 ++ [mkSuccess scan.id scan.type (durs pre.length) out] ∧
    log1.length = pre.length ∧
    (∀ k, k < pre.length → ∃ st o, pre.get? k = some st ∧
      log1.get? k = some (mkSuccess st.id st.type (durs k) o)) ∧
    ((Workflow.init wid nm ds (pre ++ scan :: post)).run inputs durs total).2.context =
      setKey ctx1 scan.id (.vDict out) ∧
    (∀ st2 ∈ post, st2.id ≠ "inputs" → st2.id ∉ pre.map Step.id → st2.id ≠ scan.id →
      st2.id ∉ ((Workflow.init wid nm ds (pre ++ scan :: post)).run
        inputs durs total).2.context.map Prod.fst) := by
  obtain ⟨rv, hrv⟩ := Option.isSome_iff_exists.mp hrisk
  have hps : processStep scan (durs (0 + pre.length)) ctx1 log1 =
      (setKey ctx1 scan.id (.vDict out),
       log1 ++ [mkSuccess scan.id scan.type (durs (0 + pre.length)) out], true) := by
    unfold processStep
    rw [hbeh]
    dsimp only
    rw [htype]
    simp [pyGetD, hsafe, pyTruthy, hrv]
  have hrun : runSteps durs (pre ++ scan :: post) 0 [("inputs", Val.vDict inputs)] [] =
      (setKey ctx1 scan.id (.vDict out),
       log1 ++ [mkSuccess scan.id scan.type (durs (0 + pre.length)) out], true) := by
    rw [runSteps_append, hpre]
    dsimp only
    simp only [runSteps]
    rw [hps]
  have hw : (Workflow.init wid nm ds (pre ++ scan :: post)).run inputs durs total =
      ({ id := wid, name := nm, description := ds, steps := pre ++ scan :: post,
         context := setKey ctx1 scan.id (.vDict out),
         execution_log := log1 ++ [mkSuccess scan.id scan.type (durs (0 + pre.length)) out] },
       { workflow_id := wid, name := nm, status := "completed", duration := total,
         steps_executed :=
           (log1 ++ [mkSuccess scan.id scan.type (durs (0 + pre.length)) out]).length,
         context := setKey ctx1 scan.id (.vDict out),
         log := log1 ++ [mkSuccess scan.id scan.type (durs (0 + pre.length)) out] }) := by
    unfold Workflow.run Workflow.init
    dsimp only
    rw [hrun]
  obtain ⟨hlen1, hk1⟩ := runSteps_noStop durs pre 0 [("inputs", Val.vDict inputs)] ctx1 log1 hpre
  have hctxsub := runSteps_keys_subset durs pre 0 [("inputs", Val.vDict inputs)] [] ctx1 log1
    false hpre
  refine ⟨by simp [hw], hlen1, ?_, by simp [hw], ?_⟩
  · intro k hk
    obtain ⟨st, o, hst, hlk⟩ := hk1 k hk
    exact ⟨st, o, hst, by simpa using hlk⟩
  · intro st2 hst2 hninp hnpre hnscan hmem
    rw [hw] at hmem
    dsimp only at hmem
    rcases setKey_keys_subset ctx1 scan.id (.vDict out) st2.id hmem with h1 | h1
    · rcases hctxsub st2.id h1 with h2 | h2
      · simp only [List.map_cons, List.map_nil, List.mem_singleton] at h2
        exact hninp h2
      · exact hnpre h2
    · exact hnscan h1

/-- C2 witness: `security_halt_stops_execution` on the spec's safety-halt
scenario `[Harvest, SecurityScan, QualityScore]` with the scan stub
returning `safe=false`: the log ends with the scan's success entry and
nothing for `quality_score_2`. -/
theorem security_halt_stops_execution_witness :
    runSteps (fun _ => 0) [harvestStep] 0 [("inputs", Val.vDict [])] [] =
      ([("inputs", Val.vDict []),
        ("harvest_web_0", Val.vDict [("success", .vBool true), ("content", .vStr "text"),
          ("metadata", .vDict [])])],
       [mkSuccess "harvest_web_0" "harvest_web" 0
         [("success", .vBool true), ("content", .vStr "text"), ("metadata", .vDict [])]],
       false) ∧
    ((Workflow.init "wf-2" "gate" "" [harvestStep, scanUnsafeStep, qualityStep]).run []
        (fun _ => 0) 0).2.log =
      [mkSuccess "harvest_web_0" "harvest_web" 0
         [("success", .vBool true), ("content", .vStr "text"), ("metadata", .vDict [])],
       mkSuccess "security_scan_1" "security_scan" 0
         [("safe", .vBool false), ("risk_score", .vInt 90), ("risk_level", .vStr "high"),
          ("issues_count", .vInt 2)]] :=
  ⟨rfl, by
    have h := (security_halt_stops_execution "wf-2" "gate" "" [harvestStep] scanUnsafeStep
      [qualityStep] [] (fun _ => 0) 0
      [("inputs", Val.vDict []),
       ("harvest_web_0", Val.vDict [("success", .vBool true), ("content", .vStr "text"),
         ("metadata", .vDict [])])]
      [mkSuccess "harvest_web_0" "harvest_web" 0
        [("success", .vBool true), ("content", .vStr "text"), ("metadata", .vDict [])]]
      [("safe", .vBool false), ("risk_score", .vInt 90), ("risk_level", .vStr "high"),
       ("issues_count", .vInt 2)]
      rfl rfl rfl rfl rfl).1
    simpa using h⟩

/-- C3: when a step's execute raises, the run appends one error entry for
that step (after the one-success-entry-per-step prefix), executes no further
step, adds no context key for the failed step, and still returns its report
mapping (the `except` clause converts the exception into the error entry and
the `break`; the model's `run` is a total function). -/
theorem step_error_failstop_and_report
    (wid nm ds : String) (pre : List Step) (bad : Step) (post : List Step)
    (inputs : List (String × Val)) (durs : Nat → Nat) (total : Nat)
    (ctx1 : List (String × Val)) (log1 : List LogEntry) (e : String)
    (hpre : runSteps durs pre 0 [("inputs", Val.vDict inputs)] [] = (ctx1, log1, false))
    (hbeh : bad.behavior ctx1 = .error e) :
    ((Workflow.init wid nm ds (pre ++ bad :: post)).run inputs durs total).2.log =
      log1 ++ [mkError bad.id bad.type e] ∧
    log1.length = pre.length ∧
    ((Workflow.init wid nm ds (pre ++ bad :: post)).run inputs durs total).2.log.get?
      pre.length = some (mkError bad.id bad.type e) ∧
    ((Workflow.init wid nm ds (pre ++ bad :: post)).run inputs durs total).2.context = ctx1 ∧
    ((Workflow.init wid nm ds (pre ++ bad :: post)).run inputs durs total).2.workflow_id = wid ∧
    ((Workflow.init wid nm ds (pre ++ bad :: post)).run inputs durs total).2.steps_executed =
      pre.length + 1 := by
  have hps : processStep bad (durs (0 + pre.length)) ctx1 log1 =
      (ctx1, log1 ++ [mkError bad.id bad.type e], true) := by
    unfold processStep
    rw [hbeh]
  have hrun : runSteps durs (pre ++ bad :: post) 0 [("inputs", Val.vDict inputs)] [] =
      (ctx1, log1 ++ [mkError bad.id bad.type e], true) := by
    rw [runSteps_append, hpre]
    dsimp only
    simp only [runSteps]
    rw [hps]
  have hw : (Workflow.init wid nm ds (pre ++ bad :: post)).run inputs durs total =
      ({ id := wid, name := nm, description := ds, steps := pre ++ bad :: post,
         context := ctx1, execution_log := log1 ++ [mkError bad.id bad.type e] },
       { workflow_id := wid, name := nm, status := "completed", duration := total,
         steps_executed := (log1 ++ [mkError bad.id bad.type e]).length,
         context := ctx1, log := log1 ++ [mkError bad.id bad.type e] }) := by
    unfold Workflow.run Workflow.init
    dsimp only
    rw [hrun]
  obtain ⟨hlen1, -⟩ := runSteps_noStop durs pre 0 [("inputs", Val.vDict inputs)] ctx1 log1 hpre
  refine ⟨by simp [hw], hlen1, ?_, by simp [hw], by simp [hw], ?_⟩
  · rw [hw]
    dsimp only
    rw [← hlen1]
    simp
  · rw [hw]
    dsimp only
    simp [hlen1]

/-- C3 witness: `step_error_failstop_and_report` on the spec's fail-stop
scenario: the second step's collaborator raises, the log's second entry is
the error entry, and the third step never executes. -/
theorem step_error_failstop_and_report_witness :
    runSteps (fun _ => 0) [harvestStep] 0 [("inputs", Val.vDict [])] [] =
      ([("inputs", Val.vDict []),
        ("harvest_web_0", Val.vDict [("success", .vBool true), ("content", .vStr "text"),
          ("metadata", .vDict [])])],
       [mkSuccess "harvest_web_0" "harvest_web" 0
         [("success", .vBool true), ("content", .vStr "text"), ("metadata", .vDict [])]],
       false) ∧
    failingStep.behavior
      [("inputs", Val.vDict []),
       ("harvest_web_0", Val.vDict [("success", .vBool true), ("content", .vStr "text"),
         ("metadata", .vDict [])])] = .error "boom" ∧
    ((Workflow.init "wf-3" "failstop" "" [harvestStep, failingStep, qualityStep]).run []
        (fun _ => 0) 0).2.log.get? 1 = some (mkError "dna_iterate_1" "dna_iterate" "boom") ∧
    ((Workflow.init "wf-3" "failstop" "" [harvestStep, failingStep, qualityStep]).run []
        (fun _ => 0) 0).2.steps_executed = 2 :=
  ⟨rfl, rfl, by
    have h := (step_error_failstop_and_report "wf-3" "failstop" "" [harvestStep] failingStep
      [qualityStep] [] (fun _ => 0) 0
      [("inputs", Val.vDict []),
       ("harvest_web_0", Val.vDict [("success", .vBool true), ("content", .vStr "text"),
         ("metadata", .vDict [])])]
      [mkSuccess "harvest_web_0" "harvest_web" 0
        [("success", .vBool true), ("content", .vStr "text"), ("metadata", .vDict [])]]
      "boom" rfl rfl).2.2.1
    simpa using h,
   by
    have h := (step_error_failstop_and_report "wf-3" "failstop" "" [harvestStep] failingStep
      [qualityStep] [] (fun _ => 0) 0
      [("inputs", Val.vDict []),
       ("harvest_web_0", Val.vDict [("success", .vBool true), ("content", .vStr "text"),
         ("metadata", .vDict [])])]
      [mkSuccess "harvest_web_0" "harvest_web" 0
        [("success", .vBool true), ("content", .vStr "text"), ("metadata", .vDict [])]]
      "boom" rfl rfl).2.2.2.2.2
    simpa using h⟩

/-- C7 counterexample: a step whose execute raises adds NO top-level key to
the Execution Context (the exception fires before `self.context[step.id] =
output` on line 237), although the step was executed (the log has its error
entry) — the context is not extended for erroneously executed steps. -/
theorem errored_step_adds_no_context_key :
    ((Workflow.init "wf-7" "fail" "" [failingStep]).run [] (fun _ => 0) 0).2.log.length = 1 ∧
    ((Workflow.init "wf-7" "fail" "" [failingStep]).run [] (fun _ => 0) 0).2.context.map
      Prod.fst = ["inputs"] :=
  ⟨rfl, rfl⟩

/-- C7 (amended): the Execution Context is seeded with exactly
`{"inputs": ...}` at run start and, when step ids are distinct and none is
the word "inputs", it gains exactly one new top-level key — the step's id —
for each SUCCESSFULLY executed step (the successful steps form a prefix of
the step list, so the key list is `"inputs"` followed by the first `m` step
ids, where `m` is the number of success log entries); a step whose execute
raises adds no key, and no key is ever removed. -/
theorem context_keys_inputs_plus_successful_steps
    (wid nm ds : String) (steps : List Step) (inputs : List (String × Val))
    (durs : Nat → Nat) (total : Nat)
    (hnodup : (steps.map Step.id).Nodup)
    (hninp : ∀ st ∈ steps, st.id ≠ "inputs") :
    ∃ m, m ≤ steps.length ∧
      ((Workflow.init wid nm ds steps).run inputs durs total).2.context.map Prod.fst =
        "inputs" :: (steps.take m).map Step.id ∧
      ((Workflow.init wid nm ds steps).run inputs durs total).2.log.countP
        (fun en => en.status == "success") = m := by
  rcases hrun : runSteps durs steps 0 [("inputs", Val.vDict inputs)] [] with ⟨c, l, b⟩
  have hfresh : ∀ st ∈ steps,
      st.id ∉ ([("inputs", Val.vDict inputs)] : List (String × Val)).map Prod.fst := by
    intro st hst
    simp [hninp st hst]
  obtain ⟨m, hm, hck, hcount⟩ :=
    runSteps_keys durs steps 0 [("inputs", Val.vDict inputs)] c l b hrun hnodup hfresh
  have hw : (Workflow.init wid nm ds steps).run inputs durs total =
      ({ id := wid, name := nm, description := ds, steps := steps,
         context := c, execution_log := l },
       { workflow_id := wid, name := nm, status := "completed", duration := total,
         steps_executed := l.length, context := c, log := l }) := by
    unfold Workflow.run Workflow.init
    dsimp only
    rw [hrun]
  refine ⟨m, hm, ?_, ?_⟩
  · rw [hw]
    dsimp only
    rw [hck]
    simp
  · rw [hw]
    dsimp only
    exact hcount

/-- C7 witness: `context_keys_inputs_plus_successful_steps` on
`[Harvest, Iterate-that-raises, QualityScore]`: the context keys are
`inputs` plus the ids of the successful prefix. -/
theorem context_keys_witness :
    ([harvestStep, failingStep, qualityStep].map Step.id).Nodup ∧
    (∀ st ∈ [harvestStep, failingStep, qualityStep], st.id ≠ "inputs") ∧
    (∃ m, m ≤ [harvestStep, failingStep, qualityStep].length ∧
      ((Workflow.init "wf-7b" "mix" "" [harvestStep, failingStep, qualityStep]).run []
          (fun _ => 0) 0).2.context.map Prod.fst =
        "inputs" :: ([harvestStep, failingStep, qualityStep].take m).map Step.id ∧
      ((Workflow.init "wf-7b" "mix" "" [harvestStep, failingStep, qualityStep]).run []
          (fun _ => 0) 0).2.log.countP (fun en => en.status == "success") = m) :=
  ⟨by decide, by decide,
   context_keys_inputs_plus_successful_steps "wf-7b" "mix" ""
     [harvestStep, failingStep, qualityStep] [] (fun _ => 0) 0 (by decide) (by decide)⟩

theorem harvestStep_wellKeyed : OutputsWellKeyed harvestStep := by
  intro ctx out h
  refine ⟨fun ht => absurd ht (by simp [harvestStep]), fun ht => absurd ht (by simp [harvestStep])⟩

theorem failingStep_wellKeyed : OutputsWellKeyed failingStep := by
  intro ctx out h
  simp [failingStep] at h

/-- C9 counterexample: the log entry of a step whose execute raised has
status `error` and NO `duration` key (the error entry of lines 263-268 omits
it), so not every appended entry carries a measured duration. -/
theorem error_log_entry_lacks_duration :
    (((Workflow.init "wf-9" "fail" "" [failingStep]).run [] (fun _ => 0) 0).2.log.get? 0).map
      LogEntry.status = some "error" ∧
    (((Workflow.init "wf-9" "fail" "" [failingStep]).run [] (fun _ => 0) 0).2.log.get? 0).map
      LogEntry.duration = some none :=
  ⟨rfl, rfl⟩

/-- C9 (amended): on a fresh Workflow whose steps' outputs carry the keys
their classes always write, exactly one log entry is appended per attempted
step, in order: entry `k` carries the id and type of step `k` and is either
a success entry `{step_id, step_type, status='success', duration, output}`
or an error entry `{step_id, step_type, status='error', error}` — the error
entry has NO duration key. -/
theorem log_entry_shape_per_attempted_step
    (wid nm ds : String) (steps : List Step) (inputs : List (String × Val))
    (durs : Nat → Nat) (total : Nat)
    (hwf : ∀ st ∈ steps, OutputsWellKeyed st) :
    ∃ m, m ≤ steps.length ∧
      ((Workflow.init wid nm ds steps).run inputs durs total).2.log.length = m ∧
      ∀ k, k < m →
        ∃ st en, steps.get? k = some st ∧
          ((Workflow.init wid nm ds steps).run inputs durs total).2.log.get? k = some en ∧
          en.step_id = st.id ∧ en.step_type = st.type ∧
          ((en.status = "success" ∧ en.duration = some (durs k) ∧
            en.output.isSome ∧ en.error = none) ∨
           (en.status = "error" ∧ en.duration = none ∧ en.output = none ∧
            en.error.isSome)) := by
  rcases hrun : runSteps durs steps 0 [("inputs", Val.vDict inputs)] [] with ⟨c, l, b⟩
  obtain ⟨m, hm, hlen, hk⟩ :=
    runSteps_wellKeyed durs steps 0 [("inputs", Val.vDict inputs)] c l b hwf hrun
  have hw : (Workflow.init wid nm ds steps).run inputs durs total =
      ({ id := wid, name := nm, description := ds, steps := steps,
         context := c, execution_log := l },
       { workflow_id := wid, name := nm, status := "completed", duration := total,
         steps_executed := l.length, context := c, log := l }) := by
    unfold Workflow.run Workflow.init
    dsimp only
    rw [hrun]
  refine ⟨m, hm, by rw [hw]; exact hlen, ?_⟩
  intro k hklt
  obtain ⟨st, en, h1, h2, h3, h4, h5⟩ := hk k hklt
  refine ⟨st, en, h1, by rw [hw]; exact h2, h3, h4, ?_⟩
  simpa using h5

/-- C9 witness: `log_entry_shape_per_attempted_step` on a run whose second
step raises: two entries, a success entry with a duration and an error entry
without one. -/
theorem log_entry_shape_witness :
    OutputsWellKeyed harvestStep ∧ OutputsWellKeyed failingStep ∧
    (∃ m, m ≤ [harvestStep, failingStep].length ∧
      ((Workflow.init "wf-9b" "mix" "" [harvestStep, failingStep]).run []
          (fun _ => 0) 0).2.log.length = m ∧
      ∀ k, k < m →
        ∃ st en, [harvestStep, failingStep].get? k = some st ∧
          ((Workflow.init "wf-9b" "mix" "" [harvestStep, failingStep]).run []
              (fun _ => 0) 0).2.log.get? k = some en ∧
          en.step_id = st.id ∧ en.step_type = st.type ∧
          ((en.status = "success" ∧ en.duration = some 0 ∧
            en.output.isSome ∧ en.error = none) ∨
           (en.status = "error" ∧ en.duration = none ∧ en.output = none ∧
            en.error.isSome))) :=
  ⟨harvestStep_wellKeyed, failingStep_wellKeyed,
   log_entry_shape_per_attempted_step "wf-9b" "mix" "" [harvestStep, failingStep] []
     (fun _ => 0) 0 (by
       intro st hst
       simp only [List.mem_cons, List.not_mem_nil, or_false] at hst
       rcases hst with rfl | rfl
       · exact harvestStep_wellKeyed
       · exact failingStep_wellKeyed)⟩

theorem from_yaml_steps_ok (sds : List StepDef) (b : ChainBuilder)
    (h : ∀ sd ∈ sds, STEP_TYPES.contains sd.type) :
    ChainBuilder.from_yaml_steps b sds = .ok { b with steps := b.steps ++ sds } := by
  induction sds generalizing b with
  | nil => simp [ChainBuilder.from_yaml_steps]
  | cons sd rest ih =>
    have hsd : STEP_TYPES.contains sd.type = true := h sd (by simp)
    simp only [ChainBuilder.from_yaml_steps, ChainBuilder.add_step, hsd, if_true]
    rw [ih _ (fun x hx => h x (by simp [hx]))]
    simp

/-- C10: build → export → load reproduces the workflow: loading the exported
document on a fresh builder succeeds and yields a WorkflowDef with the SAME
ordered step list — same ids, same types, same configs — and the same name
and description (only the uuid is freshly generated). The hypothesis (every
step's type is a registered `STEP_TYPES` key) holds for every workflow the
builder produced, since `add_step` rejects unknown types. -/
theorem export_load_roundtrip (w : WorkflowDef) (now uuid : String)
    (h : ∀ sd ∈ w.steps, STEP_TYPES.contains sd.type) :
    ChainBuilder.init.from_yaml (w.export now) uuid =
      .ok ⟨uuid, w.name, w.description, w.steps⟩ := by
  unfold ChainBuilder.from_yaml WorkflowDef.export
  dsimp only
  rw [from_yaml_steps_ok w.steps _ h]
  simp [ChainBuilder.build, ChainBuilder.init]

/-- C10 witness: `export_load_roundtrip` on a concrete two-step workflow. -/
theorem export_load_roundtrip_witness :
    (∀ sd ∈ ([⟨"harvest_web_0", "harvest_web", [("url", Val.vStr "\x7b\x7binputs.url\x7d\x7d")]⟩,
        ⟨"security_scan_1", "security_scan", [("input", Val.vStr "x")]⟩] : List StepDef),
      STEP_TYPES.contains sd.type) ∧
    ChainBuilder.init.from_yaml
        ((⟨"w-10", "pipeline", "demo",
           [⟨"harvest_web_0", "harvest_web", [("url", Val.vStr "\x7b\x7binputs.url\x7d\x7d")]⟩,
            ⟨"security_scan_1", "security_scan", [("input", Val.vStr "x")]⟩]⟩ :
          WorkflowDef).export "2026-10-12T00:00:00") "uuid-new" =
      .ok ⟨"uuid-new", "pipeline", "demo",
           [⟨"harvest_web_0", "harvest_web", [("url", Val.vStr "\x7b\x7binputs.url\x7d\x7d")]⟩,
            ⟨"security_scan_1", "security_scan", [("input", Val.vStr "x")]⟩]⟩ :=
  ⟨by decide,
   export_load_roundtrip
     ⟨"w-10", "pipeline", "demo",
      [⟨"harvest_web_0", "harvest_web", [("url", Val.vStr "\x7b\x7binputs.url\x7d\x7d")]⟩,
       ⟨"security_scan_1", "security_scan", [("input", Val.vStr "x")]⟩]⟩
     "2026-10-12T00:00:00" "uuid-new" (by decide)⟩

end PromptSync

